import Mathlib

/-!
Verification development for the AdGuard HostlistsRegistry build pipeline.

The JavaScript sources embedded here are:
* the hostlists builder (`makeRevision`, `calculateRevisionHash`,
  `replaceExpires`, `parseInfo`, `loadLocales`, `build`), and
* the service-localization folder (`groupFileContentByTranslations`).

JavaScript string primitives (`indexOf`, `lastIndexOf`, `substring`,
`parseInt`, `split`, `startsWith`) are modelled over `List Char` with the
exact clamping / NaN semantics of the ECMAScript operations, since several
behaviours of the pipeline hinge on them.  Machine time (`new Date().getTime()`)
is passed as an explicit `now : Nat` parameter.  The md5+base64 digest comes
from an external npm package, so it is abstracted as an arbitrary function
`digest : String → String`; every statement about hashing is proved for all
digests.  File-system reads appear as already-parsed input values and writes
are recorded as events in an output trace.
-/

namespace HostlistsRegistry

/-- First index at which `needle` occurs as a contiguous sublist of the
haystack, scanning left to right (`none` when there is no occurrence). -/
def subIndexAux (needle : List Char) : List Char → Option Nat
  | [] => if needle.isPrefixOf ([] : List Char) then some 0 else none
  | a :: t =>
    if needle.isPrefixOf (a :: t) then some 0
    else (subIndexAux needle t).map (· + 1)

/-- JavaScript `s.indexOf(pat)`: index of the first occurrence, `-1` if absent. -/
def jsIndexOf (s pat : String) : Int :=
  match subIndexAux pat.data s.data with
  | some n => (n : Int)
  | none => -1

/-- JavaScript `s.indexOf(pat, start)`: the start position is clamped into
`[0, s.length]` and the returned index is absolute. -/
def jsIndexOfFrom (s pat : String) (start : Int) : Int :=
  let st := (min (max start 0) (s.length : Int)).toNat
  match subIndexAux pat.data (s.data.drop st) with
  | some n => ((n + st : Nat) : Int)
  | none => -1

/-- Last index at which `needle` occurs as a contiguous sublist. -/
def lastSubIndexAux (needle : List Char) : List Char → Option Nat
  | [] => if needle.isPrefixOf ([] : List Char) then some 0 else none
  | a :: t =>
    match lastSubIndexAux needle t with
    | some n => some (n + 1)
    | none => if needle.isPrefixOf (a :: t) then some 0 else none

/-- JavaScript `s.lastIndexOf(pat)`: index of the last occurrence, `-1` if absent. -/
def jsLastIndexOf (s pat : String) : Int :=
  match lastSubIndexAux pat.data s.data with
  | some n => (n : Int)
  | none => -1

/-- JavaScript `s.substring(start, finish)`: both arguments are clamped into
`[0, s.length]` and swapped when `start > finish`. -/
def jsSubstring (s : String) (start finish : Int) : String :=
  let len : Int := (s.length : Int)
  let a := min (max start 0) len
  let b := min (max finish 0) len
  let lo := (min a b).toNat
  let hi := (max a b).toNat
  String.mk ((s.data.drop lo).take (hi - lo))

/-- JavaScript `s.startsWith(pat)`, modelled on the character lists. -/
def jsStartsWith (s pat : String) : Bool :=
  pat.data.isPrefixOf s.data

/-- Longest leading run of decimal digits. -/
def takeDigits : List Char → List Char
  | [] => []
  | c :: t => if c.isDigit then c :: takeDigits t else []

/-- Decimal value of a digit list, `none` when the list is empty
(the NaN case of `parseInt`). -/
def parseDigits (l : List Char) : Option Nat :=
  let ds := takeDigits l
  if ds = [] then none
  else some (ds.foldl (fun acc c => acc * 10 + (c.toNat - 48)) 0)

/-- JavaScript `parseInt(s, 10)`: skip leading whitespace, optional sign,
then the longest digit prefix; `none` models the NaN result. -/
def jsParseInt (s : String) : Option Int :=
  let cs := s.data.dropWhile Char.isWhitespace
  match cs with
  | '-' :: t => (parseDigits t).map (fun n => -(n : Int))
  | '+' :: t => (parseDigits t).map (fun n => (n : Int))
  | t => (parseDigits t).map (fun n => (n : Int))

/-- Split a character list at every occurrence of `c`
(JavaScript `s.split(c)` for a single-character separator). -/
def splitCharsOn (c : Char) : List Char → List (List Char)
  | [] => [[]]
  | a :: t =>
    let r := splitCharsOn c t
    if a = c then [] :: r
    else
      match r with
      | [] => [[a]]
      | h :: t2 => (a :: h) :: t2

/-- JavaScript `key.split(".")`. -/
def jsSplitDot (s : String) : List String :=
  (splitCharsOn '.' s.data).map String.mk

/-! ## Revision Tracker (`makeRevision`, `calculateRevisionHash`) -/

/-- `revision.json` content.  A record parsed from disk may lack the `hash`
property (the builder's default record has only `timeUpdated`), so `hash` is
optional; a JavaScript `undefined` hash compares unequal to every string. -/
structure RevisionRecord where
  timeUpdated : Nat
  hash : Option String
deriving DecidableEq, Repr

/-- `makeRevision(currentRevision, hash)`: builds a fresh record stamped
`now`, then keeps the previous `timeUpdated` when the previous record is
non-null and its hash equals the new hash. -/
def makeRevision (currentRevision : Option RevisionRecord) (hash : String)
    (now : Nat) : RevisionRecord :=
  let result : RevisionRecord := { timeUpdated := now, hash := some hash }
  match currentRevision with
  | some cur =>
    if cur.hash = some hash then { result with timeUpdated := cur.timeUpdated }
    else result
  | none => result

/-- `calculateRevisionHash(compiled)`: drop every line starting with
`! Last modified:`, join with newlines, and digest.  The md5/base64 digest is
an external package, abstracted as the `digest` parameter. -/
def calculateRevisionHash (digest : String → String) (compiled : List String) :
    String :=
  let data :=
    String.intercalate "\n"
      (compiled.filter (fun s => !(jsStartsWith s "! Last modified:")))
  digest data

/-! ## Expires resolver (`replaceExpires`) -/

/-- The JavaScript value flowing through `replaceExpires`: it starts as a
string, may become a number (possibly NaN) after unit conversion, and is
returned as-is when no conversion applies. -/
inductive ExpiresValue where
  | num (n : Int)
  | str (s : String)
  | nan
deriving DecidableEq, Repr

/-- JavaScript truthiness for the values `replaceExpires` can hold. -/
def jsTruthy : ExpiresValue → Bool
  | ExpiresValue.num n => n != 0
  | ExpiresValue.str s => s != ""
  | ExpiresValue.nan => false

/-- `replaceExpires(expires)`: convert a `day`/`hour` string to seconds via
`parseInt`, replace a NaN result by 86400, and finally return
`expires || 86400`.  A nonempty string with no recognized unit falls through
both conversions and is returned unchanged. -/
def replaceExpires (expires : Option String) : ExpiresValue :=
  match expires with
  | none => ExpiresValue.num 86400
  | some s =>
    if jsTruthy (ExpiresValue.str s) then
      let v1 :=
        if jsIndexOf s "day" > 0 then
          match jsParseInt s with
          | some n => ExpiresValue.num (n * 24 * 60 * 60)
          | none => ExpiresValue.nan
        else if jsIndexOf s "hour" > 0 then
          match jsParseInt s with
          | some n => ExpiresValue.num (n * 60 * 60)
          | none => ExpiresValue.nan
        else ExpiresValue.str s
      let v2 := if v1 = ExpiresValue.nan then ExpiresValue.num 86400 else v1
      if jsTruthy v2 then v2 else ExpiresValue.num 86400
    else ExpiresValue.num 86400

/-! ## Locale Folder (`parseInfo`, `loadLocales`) -/

/-- Result of `parseInfo(string, mask)`. -/
structure Info where
  id : String
  message : String
deriving DecidableEq, Repr

/-- `parseInfo(string, mask)`: `searchIndex` is
`string.indexOf(mask) + mask.length` (which is `mask.length - 1` when the
mask is absent), the id is the substring up to the next dot at or after
`searchIndex`, and the message is the substring after the last dot. -/
def parseInfo (s mask : String) : Info :=
  let searchIndex : Int := jsIndexOf s mask + (mask.length : Int)
  { id := jsSubstring s searchIndex (jsIndexOfFrom s "." searchIndex)
    message := jsSubstring s (jsLastIndexOf s "." + 1) (s.length : Int) }

/-- A JavaScript object of translated fields: field name to value. -/
def FieldMap : Type := String → Option String

/-- Locale code to field object, e.g. the value of `result.filters["10"]`. -/
def LocaleMap : Type := String → Option FieldMap

/-- Entity id to locale object, e.g. `result.filters`. -/
def IdMap : Type := String → Option LocaleMap

/-- The empty JavaScript object, at each nesting level. -/
def emptyFieldMap : FieldMap := fun _ => none

def emptyLocaleMap : LocaleMap := fun _ => none

def emptyIdMap : IdMap := fun _ => none

/-- Lookup `m[id][locale][field]`, `none` when any level is missing. -/
def getVal (m : IdMap) (id locale fld : String) : Option String :=
  match m id with
  | none => none
  | some lm =>
    match lm locale with
    | none => none
    | some fm => fm fld

/-- The three assignment lines of `loadLocales`:
`result[prop][id] = result[prop][id] || {};`
`result[prop][id][locale] = result[prop][id][locale] || {};`
`result[prop][id][locale][info.message] = message[property];`. -/
def setMessage (m : IdMap) (id locale fld value : String) : IdMap :=
  let locMap := (m id).getD emptyLocaleMap
  let fieldMap := (locMap locale).getD emptyFieldMap
  let fieldMap2 : FieldMap := fun f => if f = fld then some value else fieldMap f
  let locMap2 : LocaleMap := fun l => if l = locale then some fieldMap2 else locMap l
  fun i => if i = id then some locMap2 else m i

/-- Body of the inner key loop of `loadLocales`: parse the key and skip it
when the parsed id is falsy (the empty string). -/
def processKey (m : IdMap) (locale mask key value : String) : IdMap :=
  let info := parseInfo key mask
  if info.id = "" then m
  else setMessage m info.id locale info.message value

/-- One message object (`for (const property of Object.keys(message))`),
given as its key-value entries in property order. -/
def processMessage (m : IdMap) (locale mask : String)
    (message : List (String × String)) : IdMap :=
  message.foldl (fun acc kv => processKey acc locale mask kv.1 kv.2) m

/-- One parsed `tags.json` / `filters.json` file: `none` when the file is
absent or holds JSON `null` (then `if (messagesJson)` skips it). -/
def processFileContent (m : IdMap) (locale mask : String)
    (file : Option (List (List (String × String)))) : IdMap :=
  match file with
  | none => m
  | some messagesJson =>
    messagesJson.foldl (fun acc message => processMessage acc locale mask message) m

/-- One locale directory: its basename (the locale code) and the parsed
contents of its `tags.json` and `filters.json`. -/
structure LocaleDirInput where
  locale : String
  tagsFile : Option (List (List (String × String)))
  filtersFile : Option (List (List (String × String)))

/-- Accumulated output of `loadLocales`. -/
structure LocalesResult where
  tags : IdMap
  filters : IdMap

/-- One iteration of the locale-directory loop: the `items` array processes
`tags.json` with prefix `hostlisttag.` and `filters.json` with prefix
`hostlist.`. -/
def processLocaleDir (r : LocalesResult) (d : LocaleDirInput) : LocalesResult :=
  let r1 : LocalesResult :=
    { r with tags := processFileContent r.tags d.locale "hostlisttag." d.tagsFile }
  { r1 with filters := processFileContent r1.filters d.locale "hostlist." d.filtersFile }

/-- `loadLocales(dir)` over the list of locale directories found in `dir`. -/
def loadLocales (dirs : List LocaleDirInput) : LocalesResult :=
  dirs.foldl processLocaleDir { tags := emptyIdMap, filters := emptyIdMap }

/-! ## Metadata Aggregator (`build`)

`build(filtersDir, tagsDir, localesDir, assetsDir)` walks the filter
directories, compiles each enabled hostlist, rewrites the per-list files when
the hash changed, then runs the mastodon stage and writes the catalog files.
Reads are modelled as already-parsed input values per directory; the external
`hostlistCompiler` and `mastodonServerlistCompiler` collaborators are
modelled as `Except`-valued inputs; every `writeFile` call is recorded as a
`WriteEvent` in the returned trace, in execution order. -/

/-- One entry of `configuration.json`'s `sources` array. -/
structure Source where
  source : String
deriving DecidableEq, Repr

/-- The parsed `configuration.json` of one filter directory. -/
structure HostlistConfiguration where
  sources : List Source
deriving DecidableEq, Repr

/-- The parsed `metadata.json` of one filter directory. -/
structure Metadata where
  filterId : Option Nat
  id : Nat
  name : String
  description : String
  tags : List String
  homepage : String
  expires : Option String
  displayNumber : Option Nat
  timeAdded : String
  disabled : Bool
  environment : String
deriving DecidableEq, Repr

/-- The flattened per-filter record pushed into the catalogs. -/
structure FilterMetadata where
  filterId : Option Nat
  id : Nat
  name : String
  description : String
  tags : List String
  homepage : String
  expires : ExpiresValue
  displayNumber : Option Nat
  downloadUrl : String
  sourceUrl : String
  timeAdded : String
  timeUpdated : Nat
deriving DecidableEq, Repr

/-- One `writeFile` call of `build`, identified by its target file
(per-list files carry the index of the filter directory in the walk). -/
inductive WriteEvent where
  | revisionFile (idx : Nat)
  | assetsFilter (idx : Nat)
  | filterTxt (idx : Nat)
  | servicesJson
  | filtersJson
  | filtersDevJson
  | filtersI18nJson
deriving DecidableEq, Repr

/-- Everything `build` reads for one filter directory, plus the outcome of
the awaited external compiler for it. -/
structure FilterDirInput where
  metadata : Metadata
  revision : Option RevisionRecord
  configuration : HostlistConfiguration
  compile : Except String (List String)

/-- The remote base path for download URLs. -/
def HOSTLISTS_URL : String := "https://adguardteam.github.io/HostlistsRegistry/assets"

/-- `sourceUrl` resolution: the single source's URL when `sources` has
exactly one entry, the metadata homepage otherwise. -/
def resolveSourceUrl (cfg : HostlistConfiguration) (metadata : Metadata) : String :=
  match cfg.sources with
  | [s] => s.source
  | _ => metadata.homepage

/-- The `filterMetadata` object literal of the loop body. -/
def mkFilterMetadata (metadata : Metadata) (cfg : HostlistConfiguration)
    (timeUpdated : Nat) : FilterMetadata :=
  let filterName := "filter_" ++ toString metadata.id ++ ".txt"
  { filterId := metadata.filterId
    id := metadata.id
    name := metadata.name
    description := metadata.description
    tags := metadata.tags
    homepage := metadata.homepage
    expires := replaceExpires metadata.expires
    displayNumber := metadata.displayNumber
    downloadUrl := HOSTLISTS_URL ++ "/" ++ filterName
    sourceUrl := resolveSourceUrl cfg metadata
    timeAdded := metadata.timeAdded
    timeUpdated := timeUpdated }

/-- The default revision used when `revision.json` is absent or null:
`\x7b timeUpdated: new Date().getTime() \x7d`, with no `hash` property. -/
def defaultRevision (now : Nat) : RevisionRecord :=
  { timeUpdated := now, hash := none }

/-- One iteration of the filter-directory loop: skip compilation when the
list is disabled; otherwise compile, and when the new hash differs from the
stored one write `revision.json`, the assets copy and `filter.txt`.  A
compiler failure is rethrown as `Failed to compile <id>: <ex>`.  Returns the
write events of this iteration and either the emitted catalog record or the
thrown error. -/
def processFilterDir (digest : String → String) (now : Nat) (idx : Nat)
    (inp : FilterDirInput) : List WriteEvent × Except String FilterMetadata :=
  let metadata := inp.metadata
  let currentRevision := inp.revision.getD (defaultRevision now)
  if metadata.disabled then
    ([], Except.ok (mkFilterMetadata metadata inp.configuration currentRevision.timeUpdated))
  else
    match inp.compile with
    | Except.error ex =>
      ([], Except.error ("Failed to compile " ++ toString metadata.id ++ ": " ++ ex))
    | Except.ok hostlistCompiled =>
      let hash := calculateRevisionHash digest hostlistCompiled
      if currentRevision.hash ≠ some hash then
        let newRevision := makeRevision (some currentRevision) hash now
        ([WriteEvent.revisionFile idx, WriteEvent.assetsFilter idx, WriteEvent.filterTxt idx],
          Except.ok (mkFilterMetadata metadata inp.configuration newRevision.timeUpdated))
      else
        ([], Except.ok (mkFilterMetadata metadata inp.configuration currentRevision.timeUpdated))

/-- The filter-directory loop: on success returns the prod catalog
(`filtersMetadata`, only `environment === "prod"` records) and the dev
catalog (`filtersMetadataDev`, every record), in walk order. -/
def buildLoop (digest : String → String) (now : Nat) :
    Nat → List FilterDirInput →
    List WriteEvent × Except String (List FilterMetadata × List FilterMetadata)
  | _, [] => ([], Except.ok ([], []))
  | idx, inp :: rest =>
    match processFilterDir digest now idx inp with
    | (w, Except.error e) => (w, Except.error e)
    | (w, Except.ok fm) =>
      match buildLoop digest now (idx + 1) rest with
      | (ws, Except.error e) => (w ++ ws, Except.error e)
      | (ws, Except.ok (fprod, fdev)) =>
        (w ++ ws,
          Except.ok
            ((if inp.metadata.environment = "prod" then fm :: fprod else fprod),
              fm :: fdev))

/-- One element of `services.json`'s `blocked_services` array (only the
fields the builder touches). -/
structure BlockedService where
  id : String
  rules : List String
deriving DecidableEq, Repr

/-- The parsed `services.json`. -/
structure ServicesJson where
  blocked_services : List BlockedService
deriving DecidableEq, Repr

/-- Replace the element at an index (`arr[idx] = v` on a found index). -/
def listModify (f : α → α) : Nat → List α → List α
  | _, [] => []
  | 0, a :: t => f a :: t
  | n + 1, a :: t => a :: listModify f n t

/-- Everything one `build` invocation reads, with external collaborators as
`Except`-valued inputs.  `services = none` models a null parse of
`services.json` (the read itself does not throw; the later property access
does).  The tags metadata file is copied verbatim into the catalogs and is
irrelevant to every claim, so it is not modelled. -/
structure BuildInput where
  filters : List FilterDirInput
  services : Option ServicesJson
  mastodonServers : Except String (List String)
  locales : List LocaleDirInput

/-- The data `build` puts into the four catalog files on success. -/
structure BuildOutput where
  filtersMetadata : List FilterMetadata
  filtersMetadataDev : List FilterMetadata
  services : ServicesJson
  localizations : LocalesResult

/-- `build`: run the filter loop, then the mastodon stage (compiler first,
then the `blocked_services` lookup that throws on a null `services` object or
a missing `mastodon` entry), then write `services.json`, `filters.json`,
`filters-dev.json` and `filters_i18n.json`, in that order.  A failure
returns the writes performed so far together with the error. -/
def build (digest : String → String) (now : Nat) (inp : BuildInput) :
    List WriteEvent × Except String BuildOutput :=
  match buildLoop digest now 0 inp.filters with
  | (ws, Except.error e) => (ws, Except.error e)
  | (ws, Except.ok (filtersMetadata, filtersMetadataDev)) =>
    match inp.mastodonServers with
    | Except.error e => (ws, Except.error e)
    | Except.ok mastodonServers =>
      match inp.services with
      | none => (ws, Except.error "TypeError: cannot read properties of null")
      | some services =>
        match services.blocked_services.findIdx? (fun el => el.id = "mastodon") with
        | none => (ws, Except.error "Mastodon service not found")
        | some mastodonIndex =>
          let services2 : ServicesJson :=
            { services with
                blocked_services :=
                  listModify (fun svc => { svc with rules := mastodonServers })
                    mastodonIndex services.blocked_services }
          let localizations := loadLocales inp.locales
          (ws ++ [WriteEvent.servicesJson, WriteEvent.filtersJson,
              WriteEvent.filtersDevJson, WriteEvent.filtersI18nJson],
            Except.ok
              { filtersMetadata := filtersMetadata
                filtersMetadataDev := filtersMetadataDev
                services := services2
                localizations := localizations })

/-- Whether an `Except` value is a success. -/
def exceptIsOk : Except ε α → Bool
  | Except.ok _ => true
  | Except.error _ => false

/-- Whether a write event targets one of the four catalog files. -/
def isCatalogWrite : WriteEvent → Bool
  | WriteEvent.servicesJson => true
  | WriteEvent.filtersJson => true
  | WriteEvent.filtersDevJson => true
  | WriteEvent.filtersI18nJson => true
  | _ => false

/-- The sublist of emitted records whose corresponding descriptor has
environment `prod`, pairing descriptors and records positionally. -/
def prodOf : List FilterDirInput → List FilterMetadata → List FilterMetadata
  | inp :: is, fm :: fms =>
    if inp.metadata.environment = "prod" then fm :: prodOf is fms
    else prodOf is fms
  | _, _ => []

/-! ## Service-group translation folder (`groupFileContentByTranslations`)

In the JavaScript, one iteration of `fileObjects.forEach` creates a single
`translate` object and a single `localesTranslate` object, mutates them for
every key of the file object, and stores *references* to them under every
parsed id.  After the loop all recorded ids therefore alias the same final
objects.  The embedding models this by computing the final accumulated
`translate` object of the file object and mapping every recorded id to the
same `\x7b locale: translate \x7d` value. -/

/-- `key.split('.')[1]` of a destructuring `[, id, sign]`; a missing
component is the JavaScript `undefined`, which becomes the property name
`"undefined"` when used as an object key. -/
def keyId (key : String) : String :=
  ((jsSplitDot key).get? 1).getD "undefined"

/-- `key.split('.')[2]` of the destructuring, with the same `undefined`
behaviour. -/
def keySign (key : String) : String :=
  ((jsSplitDot key).get? 2).getD "undefined"

/-- The ids parsed from the keys of one file object, in property order. -/
def fileObjectIds (fileObject : List (String × String)) : List String :=
  fileObject.map (fun kv => keyId kv.1)

/-- The final state of the shared `translate` object after every
`translate[sign] = value` assignment of one file object. -/
def fileObjectTranslate (fileObject : List (String × String)) : FieldMap :=
  fileObject.foldl
    (fun acc kv => fun s => if s = keySign kv.1 then some kv.2 else acc s)
    emptyFieldMap

/-- `groupFileContentByTranslations(fileObjects, locale)`: per file object,
assign the shared `\x7b locale: translate \x7d` object to every parsed id,
then `Object.assign` the result onto the accumulator. -/
def groupFileContentByTranslations (fileObjects : List (List (String × String)))
    (locale : String) : IdMap :=
  fileObjects.foldl
    (fun grouped fileObject =>
      let translate := fileObjectTranslate fileObject
      let localesTranslate : LocaleMap :=
        fun l => if l = locale then some translate else none
      (fileObjectIds fileObject).foldl
        (fun g i => fun j => if j = i then some localesTranslate else g j)
        grouped)
    emptyIdMap

/-- Independent description of the shared `translate` object: for each sign,
the value of the last key of the file object parsing to that sign (entries
further down the object take precedence). -/
def lastValueOfSign (fileObject : List (String × String)) (sign : String) :
    Option String :=
  match fileObject with
  | [] => none
  | kv :: t =>
    match lastValueOfSign t sign with
    | some v => some v
    | none => if keySign kv.1 = sign then some kv.2 else none

/-! ## Concrete fixtures -/

/-- Identity digest used to instantiate the abstract md5/base64 digest. -/
def digestId : String → String := fun s => s

def mdProd : Metadata :=
  { filterId := none, id := 1, name := "List One", description := "first",
    tags := ["t1"], homepage := "https://example.org/one",
    expires := some "5 days", displayNumber := some 1,
    timeAdded := "2023-01-01", disabled := false, environment := "prod" }

def mdStaging : Metadata :=
  { mdProd with id := 2, homepage := "https://example.org/two", environment := "staging" }

def mdDisabled : Metadata :=
  { mdProd with id := 3, disabled := true }

def mdBroken : Metadata :=
  { mdProd with id := 4 }

def fProd : FilterDirInput :=
  { metadata := mdProd, revision := none,
    configuration := ⟨[⟨"https://example.org/source.txt"⟩]⟩,
    compile := Except.ok ["rule1"] }

def fStaging : FilterDirInput :=
  { metadata := mdStaging, revision := none,
    configuration := ⟨[⟨"https://a"⟩, ⟨"https://b"⟩, ⟨"https://c"⟩]⟩,
    compile := Except.ok ["rule2"] }

def fBroken : FilterDirInput :=
  { metadata := mdBroken, revision := none, configuration := ⟨[]⟩,
    compile := Except.error "network down" }

def fDisabled : FilterDirInput :=
  { metadata := mdDisabled, revision := some ⟨7, some "h0"⟩,
    configuration := ⟨[]⟩, compile := Except.error "never invoked" }

def servicesFixture : ServicesJson := ⟨[⟨"mastodon", []⟩]⟩

def c3Input : BuildInput :=
  { filters := [fProd, fBroken], services := some servicesFixture,
    mastodonServers := Except.ok [], locales := [] }

def c9Input : BuildInput :=
  { filters := [fProd, fStaging], services := some servicesFixture,
    mastodonServers := Except.ok [], locales := [] }

def enDirInput : LocaleDirInput := ⟨"en", none, some [[("hostlist.10.name", "Name en")]]⟩

def frDirInput : LocaleDirInput := ⟨"fr", none, some [[("hostlist.10.name", "Name fr")]]⟩

def demoFileObject : List (String × String) :=
  [("servicesgroup.a.name", "A"), ("servicesgroup.b.description", "B")]

def otherDirInput : LocaleDirInput := ⟨"en", none, some [[("other.1.name", "v")]]⟩

/-- The output of `build digestId 1000 c9Input`, spelled out. -/
def c9Out : BuildOutput :=
  { filtersMetadata := [mkFilterMetadata mdProd fProd.configuration 1000]
    filtersMetadataDev := [mkFilterMetadata mdProd fProd.configuration 1000,
      mkFilterMetadata mdStaging fStaging.configuration 1000]
    services := ⟨[⟨"mastodon", []⟩]⟩
    localizations := loadLocales [] }

/-! ## Claim theorems -/

/-- C1: for every previous revision record and new content hash,
`makeRevision` returns a record whose hash is the new hash; its
`timeUpdated` is the previous record's `timeUpdated` when the previous
record is non-null with an equal hash, and the current time otherwise; and
re-running it on its own output with the same hash leaves `timeUpdated`
unchanged (idempotence on the second run). -/
theorem makeRevision_decides_timeUpdated (prev : Option RevisionRecord)
    (h : String) (now now2 : Nat) :
    (makeRevision prev h now).hash = some h ∧
    (makeRevision prev h now).timeUpdated =
      (match prev with
       | some cur => if cur.hash = some h then cur.timeUpdated else now
       | none => now) ∧
    (makeRevision (some (makeRevision prev h now)) h now2).timeUpdated =
      (makeRevision prev h now).timeUpdated := by
  refine ⟨?_, ?_, ?_⟩ <;>
    cases prev with
    | none => simp [makeRevision]
    | some cur => by_cases hc : cur.hash = some h <;> simp [makeRevision, hc]

/-- C2: `calculateRevisionHash` returns the same hash for any two compiled
rule arrays that agree after removing every line starting with the volatile
`! Last modified:` marker, for every digest function. -/
theorem calculateRevisionHash_ignores_last_modified (digest : String → String)
    (c1 c2 : List String)
    (hf : c1.filter (fun s => !(jsStartsWith s "! Last modified:")) =
        c2.filter (fun s => !(jsStartsWith s "! Last modified:"))) :
    calculateRevisionHash digest c1 = calculateRevisionHash digest c2 := by
  unfold calculateRevisionHash
  rw [hf]

/-- C2 witness: two concrete rule arrays differing only in the timestamp
line hash identically. -/
theorem calculateRevisionHash_ignores_last_modified_witness :
    ["! Last modified: Mon", "a"].filter (fun s => !(jsStartsWith s "! Last modified:")) =
      ["a", "! Last modified: Tue"].filter (fun s => !(jsStartsWith s "! Last modified:")) ∧
    calculateRevisionHash digestId ["! Last modified: Mon", "a"] =
      calculateRevisionHash digestId ["a", "! Last modified: Tue"] :=
  ⟨by decide,
    calculateRevisionHash_ignores_last_modified digestId _ _ (by decide)⟩

/-- C4 counterexample: on `"banana"` the resolver does not return the
default 86400 — `Number.isNaN` is false on a string, so the string itself is
returned. -/
theorem replaceExpires_banana_not_defaulted :
    ¬ replaceExpires (some "banana") = ExpiresValue.num 86400 := by decide

/-- C4 amended: `replaceExpires` yields 432000 for `"5 days"` and 14400 for
`"4 hours"`; an absent input and a day/hour string whose leading integer
fails to parse default to 86400; a parsed day/hour count multiplies by 86400
resp. 3600 (when the product is nonzero); but a nonempty input with no
recognized `day`/`hour` unit, such as `"banana"`, is returned unchanged
rather than defaulted. -/
theorem replaceExpires_behaviour :
    replaceExpires (some "5 days") = ExpiresValue.num 432000 ∧
    replaceExpires (some "4 hours") = ExpiresValue.num 14400 ∧
    replaceExpires none = ExpiresValue.num 86400 ∧
    replaceExpires (some "banana") = ExpiresValue.str "banana" ∧
    (∀ s, jsIndexOf s "day" > 0 → jsParseInt s = none →
      replaceExpires (some s) = ExpiresValue.num 86400) ∧
    (∀ s, s ≠ "" → ¬ jsIndexOf s "day" > 0 → ¬ jsIndexOf s "hour" > 0 →
      replaceExpires (some s) = ExpiresValue.str s) ∧
    (∀ s n, jsIndexOf s "day" > 0 → jsParseInt s = some n → n ≠ 0 →
      replaceExpires (some s) = ExpiresValue.num (n * 86400)) ∧
    (∀ s n, ¬ jsIndexOf s "day" > 0 → jsIndexOf s "hour" > 0 →
      jsParseInt s = some n → n ≠ 0 →
      replaceExpires (some s) = ExpiresValue.num (n * 3600)) := by
  refine ⟨by decide, by decide, rfl, by decide, ?_, ?_, ?_, ?_⟩
  · intro s hday hnan
    have hs : s ≠ "" := by
      intro he
      subst he
      exact absurd hday (by decide)
    simp only [replaceExpires, jsTruthy, bne_iff_ne, ne_eq, hs,
      not_false_eq_true, if_true, if_pos hday, hnan]
    decide
  · intro s hs hday hhour
    simp only [replaceExpires, jsTruthy, bne_iff_ne, ne_eq, hs,
      not_false_eq_true, if_true, if_neg hday, if_neg hhour]
    simp [hs]
  · intro s n hday hparse hn
    have hs : s ≠ "" := by
      intro he
      subst he
      exact absurd hday (by decide)
    have hmul : n * 24 * 60 * 60 ≠ 0 := by
      intro hz
      apply hn
      omega
    simp only [replaceExpires, jsTruthy, bne_iff_ne, ne_eq, hs,
      not_false_eq_true, if_true, if_pos hday, hparse]
    simp only [reduceCtorEq, if_false, bne_iff_ne, ne_eq, hmul,
      not_false_eq_true, if_true]
    have : n * 24 * 60 * 60 = n * 86400 := by ring
    rw [this]
  · intro s n hday hhour hparse hn
    have hs : s ≠ "" := by
      intro he
      subst he
      exact absurd hhour (by decide)
    have hmul : n * 60 * 60 ≠ 0 := by
      intro hz
      apply hn
      omega
    simp only [replaceExpires, jsTruthy, bne_iff_ne, ne_eq, hs,
      not_false_eq_true, if_true, if_neg hday, if_pos hhour, hparse]
    simp only [reduceCtorEq, if_false, bne_iff_ne, ne_eq, hmul,
      not_false_eq_true, if_true]
    have : n * 60 * 60 = n * 3600 := by ring
    rw [this]

/-- C4 witness: a day-string with an unparseable integer defaults to 86400,
via the amended theorem. -/
theorem replaceExpires_behaviour_witness :
    jsIndexOf "x days" "day" > 0 ∧ jsParseInt "x days" = none ∧
    replaceExpires (some "x days") = ExpiresValue.num 86400 :=
  ⟨by decide, by decide,
    replaceExpires_behaviour.2.2.2.2.1 "x days" (by decide) (by decide)⟩

theorem mkFilterMetadata_sourceUrl (metadata : Metadata)
    (cfg : HostlistConfiguration) (t : Nat) :
    (mkFilterMetadata metadata cfg t).sourceUrl = resolveSourceUrl cfg metadata := rfl

/-- C7: per list, the revision file and the compiled filter files are
written only when the list is enabled and the newly computed hash differs
from the stored one; a disabled list performs no write and its compile
result is never consulted, while its metadata record is still emitted. -/
theorem processFilterDir_frame (digest : String → String) (now idx : Nat)
    (inp : FilterDirInput) :
    (inp.metadata.disabled = true →
      processFilterDir digest now idx inp =
        ([], Except.ok (mkFilterMetadata inp.metadata inp.configuration
          ((inp.revision.getD (defaultRevision now)).timeUpdated)))) ∧
    (∀ compiled, inp.compile = Except.ok compiled →
      (inp.revision.getD (defaultRevision now)).hash =
        some (calculateRevisionHash digest compiled) →
      (processFilterDir digest now idx inp).1 = []) ∧
    ((processFilterDir digest now idx inp).1 ≠ [] →
      inp.metadata.disabled = false ∧
      ∃ compiled, inp.compile = Except.ok compiled ∧
        (inp.revision.getD (defaultRevision now)).hash ≠
          some (calculateRevisionHash digest compiled)) := by
  refine ⟨?_, ?_, ?_⟩
  · intro hd
    simp [processFilterDir, hd]
  · intro compiled hc hh
    by_cases hd : inp.metadata.disabled
    · simp [processFilterDir, hd]
    · simp [processFilterDir, hd, hc, hh]
  · intro hw
    by_cases hd : inp.metadata.disabled
    · exact absurd (by simp [processFilterDir, hd]) hw
    · refine ⟨by simpa using hd, ?_⟩
      cases hc : inp.compile with
      | error e => exact absurd (by simp [processFilterDir, hd, hc]) hw
      | ok compiled =>
        refine ⟨compiled, rfl, ?_⟩
        intro hh
        exact hw (by simp [processFilterDir, hd, hc, hh])

/-- C7 witness: a concrete disabled list is left untouched and still emits
its metadata record with the stored `timeUpdated`. -/
theorem processFilterDir_frame_witness :
    fDisabled.metadata.disabled = true ∧
    processFilterDir digestId 1000 0 fDisabled =
      ([], Except.ok (mkFilterMetadata fDisabled.metadata fDisabled.configuration 7)) :=
  ⟨rfl, (processFilterDir_frame digestId 1000 0 fDisabled).1 rfl⟩

/-- C8: the emitted metadata's `sourceUrl` is the single source's URL when
the list's source configuration has exactly one source, and the descriptor's
homepage in every other case. -/
theorem sourceUrl_resolution (digest : String → String) (now idx : Nat)
    (inp : FilterDirInput) (fm : FilterMetadata) :
    ((processFilterDir digest now idx inp).2 = Except.ok fm →
      fm.sourceUrl = resolveSourceUrl inp.configuration inp.metadata) ∧
    (∀ s, inp.configuration.sources = [s] →
      resolveSourceUrl inp.configuration inp.metadata = s.source) ∧
    (inp.configuration.sources.length ≠ 1 →
      resolveSourceUrl inp.configuration inp.metadata = inp.metadata.homepage) := by
  refine ⟨?_, ?_, ?_⟩
  · intro h
    by_cases hd : inp.metadata.disabled
    · simp [processFilterDir, hd] at h
      rw [← h]
      exact mkFilterMetadata_sourceUrl ..
    · cases hc : inp.compile with
      | error e => simp [processFilterDir, hd, hc] at h
      | ok compiled =>
        by_cases hh : (inp.revision.getD (defaultRevision now)).hash =
            some (calculateRevisionHash digest compiled)
        · simp [processFilterDir, hd, hc, hh] at h
          rw [← h]
          exact mkFilterMetadata_sourceUrl ..
        · simp [processFilterDir, hd, hc, hh] at h
          rw [← h]
          exact mkFilterMetadata_sourceUrl ..
  · intro s hs
    simp [resolveSourceUrl, hs]
  · intro hlen
    unfold resolveSourceUrl
    match hsrc : inp.configuration.sources with
    | [] => rfl
    | [s] => exact absurd (by rw [hsrc]; rfl) hlen
    | a :: b :: t => rfl

/-- C8 witness: a one-source fixture resolves to that source's URL, and a
three-source fixture resolves to the homepage. -/
theorem sourceUrl_resolution_witness :
    fProd.configuration.sources = [⟨"https://example.org/source.txt"⟩] ∧
    resolveSourceUrl fProd.configuration fProd.metadata = "https://example.org/source.txt" ∧
    fStaging.configuration.sources.length ≠ 1 ∧
    resolveSourceUrl fStaging.configuration fStaging.metadata = mdStaging.homepage :=
  ⟨rfl,
    (sourceUrl_resolution digestId 0 0 fProd
      (mkFilterMetadata fProd.metadata fProd.configuration 0)).2.1
      ⟨"https://example.org/source.txt"⟩ rfl,
    by decide,
    (sourceUrl_resolution digestId 0 0 fStaging
      (mkFilterMetadata fStaging.metadata fStaging.configuration 0)).2.2
      (by decide)⟩

theorem processFilterDir_writes_not_catalog (digest : String → String)
    (now idx : Nat) (inp : FilterDirInput) :
    ∀ w ∈ (processFilterDir digest now idx inp).1, isCatalogWrite w = false := by
  intro w hw
  by_cases hd : inp.metadata.disabled
  · simp [processFilterDir, hd] at hw
  · cases hc : inp.compile with
    | error e => simp [processFilterDir, hd, hc] at hw
    | ok compiled =>
      by_cases hh : (inp.revision.getD (defaultRevision now)).hash =
          some (calculateRevisionHash digest compiled)
      · simp [processFilterDir, hd, hc, hh] at hw
      · simp [processFilterDir, hd, hc, hh] at hw
        rcases hw with rfl | rfl | rfl <;> rfl

theorem buildLoop_writes_not_catalog (digest : String → String) (now : Nat) :
    ∀ (filters : List FilterDirInput) (idx : Nat),
      ∀ w ∈ (buildLoop digest now idx filters).1, isCatalogWrite w = false := by
  intro filters
  induction filters with
  | nil => intro idx w hw; simp [buildLoop] at hw
  | cons inp rest ih =>
    intro idx w hw
    unfold buildLoop at hw
    cases hp : processFilterDir digest now idx inp with
    | mk wh r =>
      rw [hp] at hw
      cases r with
      | error e =>
        exact processFilterDir_writes_not_catalog digest now idx inp w (hp ▸ hw)
      | ok fm =>
        cases hbl : buildLoop digest now (idx + 1) rest with
        | mk ws r2 =>
          rw [hbl] at hw
          cases r2 with
          | error e =>
            simp only [List.mem_append] at hw
            rcases hw with hw | hw
            · exact processFilterDir_writes_not_catalog digest now idx inp w (hp ▸ hw)
            · exact ih (idx + 1) w (hbl ▸ hw)
          | ok pr =>
            simp only [List.mem_append] at hw
            rcases hw with hw | hw
            · exact processFilterDir_writes_not_catalog digest now idx inp w (hp ▸ hw)
            · exact ih (idx + 1) w (hbl ▸ hw)

/-- C3 counterexample: with a first list that compiles to changed content
and a second list whose compile fails, the run fails but the first list's
revision file (and its filter files) were already rewritten — the build does
not abort before every output write. -/
theorem build_failure_after_partial_writes :
    exceptIsOk (build digestId 1000 c3Input).2 = false ∧
    WriteEvent.revisionFile 0 ∈ (build digestId 1000 c3Input).1 ∧
    WriteEvent.filterTxt 0 ∈ (build digestId 1000 c3Input).1 := by decide

theorem build_writes_cases (digest : String → String) (now : Nat)
    (inp : BuildInput) :
    ((build digest now inp).1 = (buildLoop digest now 0 inp.filters).1 ∧
      exceptIsOk (build digest now inp).2 = false) ∨
    ((build digest now inp).1 =
        (buildLoop digest now 0 inp.filters).1 ++
          [WriteEvent.servicesJson, WriteEvent.filtersJson,
            WriteEvent.filtersDevJson, WriteEvent.filtersI18nJson] ∧
      exceptIsOk (build digest now inp).2 = true) := by
  unfold build
  cases hbl : buildLoop digest now 0 inp.filters with
  | mk ws r =>
    dsimp only
    cases r with
    | error e2 => exact Or.inl ⟨rfl, rfl⟩
    | ok pr =>
      rcases pr with ⟨fprod, fdev⟩
      dsimp only
      cases hm : inp.mastodonServers with
      | error e2 => exact Or.inl ⟨rfl, rfl⟩
      | ok mastodonServers =>
        dsimp only
        cases hs : inp.services with
        | none => exact Or.inl ⟨rfl, rfl⟩
        | some services =>
          dsimp only
          cases hf : services.blocked_services.findIdx? (fun el => el.id = "mastodon") with
          | none => exact Or.inl ⟨rfl, rfl⟩
          | some mastodonIndex => exact Or.inr ⟨rfl, rfl⟩

/-- C3 amended: a failure in the per-list loop or in the mastodon stage
(compile failure, mastodon compiler failure, null services data, or missing
mastodon entry) aborts the build before any catalog file — `services.json`,
`filters.json`, `filters-dev.json`, `filters_i18n.json` — is written;
however revision and filter files of lists processed earlier in the same
run may already have been overwritten. -/
theorem build_aborts_before_catalog_writes (digest : String → String)
    (now : Nat) (inp : BuildInput) (e : String)
    (h : (build digest now inp).2 = Except.error e) :
    ∀ w ∈ (build digest now inp).1, isCatalogWrite w = false := by
  intro w hw
  rcases build_writes_cases digest now inp with ⟨hw1, _⟩ | ⟨_, hok⟩
  · rw [hw1] at hw
    exact buildLoop_writes_not_catalog digest now inp.filters 0 w hw
  · rw [h] at hok
    exact absurd hok (by simp [exceptIsOk])

/-- C3 amended witness: on the concrete failing run, no catalog file is in
the write trace. -/
theorem build_aborts_before_catalog_writes_witness :
    (build digestId 1000 c3Input).2 = Except.error "Failed to compile 4: network down" ∧
    (∀ w ∈ (build digestId 1000 c3Input).1, isCatalogWrite w = false) :=
  ⟨rfl,
    build_aborts_before_catalog_writes digestId 1000 c3Input
      "Failed to compile 4: network down" rfl⟩

theorem getVal_setMessage_ne (m : IdMap) (id2 locale2 fld2 v : String)
    (id l f : String) (hl : l ≠ locale2) :
    getVal (setMessage m id2 locale2 fld2 v) id l f = getVal m id l f := by
  by_cases hid : id = id2
  · subst hid
    cases hm : m id with
    | none => simp [setMessage, getVal, hm, Option.getD, emptyLocaleMap, hl]
    | some lm => simp [setMessage, getVal, hm, Option.getD, hl]
  · simp [setMessage, getVal, hid]

theorem getVal_processKey_ne (m : IdMap) (locale2 mask key value : String)
    (id l f : String) (hl : l ≠ locale2) :
    getVal (processKey m locale2 mask key value) id l f = getVal m id l f := by
  by_cases h : (parseInfo key mask).id = ""
  · simp [processKey, h]
  · simp only [processKey, h, if_false]
    exact getVal_setMessage_ne m (parseInfo key mask).id locale2
      (parseInfo key mask).message value id l f hl

theorem getVal_processMessage_ne (locale2 mask : String)
    (message : List (String × String)) (id l f : String) (hl : l ≠ locale2) :
    ∀ m, getVal (processMessage m locale2 mask message) id l f = getVal m id l f := by
  induction message with
  | nil => intro m; rfl
  | cons kv t ih =>
    intro m
    unfold processMessage at ih ⊢
    rw [List.foldl_cons, ih]
    exact getVal_processKey_ne m locale2 mask kv.1 kv.2 id l f hl

theorem getVal_processMessages_ne (locale2 mask : String)
    (messages : List (List (String × String))) (id l f : String)
    (hl : l ≠ locale2) :
    ∀ m, getVal
        (messages.foldl (fun acc message => processMessage acc locale2 mask message) m)
        id l f = getVal m id l f := by
  induction messages with
  | nil => intro m; rfl
  | cons msg t ih =>
    intro m
    rw [List.foldl_cons, ih]
    exact getVal_processMessage_ne locale2 mask msg id l f hl m

theorem getVal_processFileContent_ne (locale2 mask : String)
    (file : Option (List (List (String × String)))) (id l f : String)
    (hl : l ≠ locale2) :
    ∀ m, getVal (processFileContent m locale2 mask file) id l f = getVal m id l f := by
  cases file with
  | none => intro m; rfl
  | some messages => exact fun m => getVal_processMessages_ne locale2 mask messages id l f hl m

theorem getVal_processLocaleDir_ne (r : LocalesResult) (d : LocaleDirInput)
    (id l f : String) (hl : l ≠ d.locale) :
    getVal (processLocaleDir r d).filters id l f = getVal r.filters id l f ∧
    getVal (processLocaleDir r d).tags id l f = getVal r.tags id l f := by
  unfold processLocaleDir
  exact ⟨getVal_processFileContent_ne d.locale "hostlist." d.filtersFile id l f hl _,
    getVal_processFileContent_ne d.locale "hostlisttag." d.tagsFile id l f hl _⟩

theorem getVal_foldLocaleDirs_ne (ds : List LocaleDirInput) (l : String)
    (h : ∀ d ∈ ds, d.locale ≠ l) (id f : String) :
    ∀ r : LocalesResult,
      getVal (ds.foldl processLocaleDir r).filters id l f = getVal r.filters id l f ∧
      getVal (ds.foldl processLocaleDir r).tags id l f = getVal r.tags id l f := by
  induction ds with
  | nil => intro r; exact ⟨rfl, rfl⟩
  | cons d t ih =>
    intro r
    have hd : d.locale ≠ l := h d (List.mem_cons_self d t)
    have ht : ∀ d2 ∈ t, d2.locale ≠ l := fun d2 hd2 => h d2 (List.mem_cons_of_mem d hd2)
    rw [List.foldl_cons]
    rcases ih ht (processLocaleDir r d) with ⟨ihf, iht⟩
    rcases getVal_processLocaleDir_ne r d id l f (Ne.symm hd) with ⟨hf2, ht2⟩
    exact ⟨ihf.trans hf2, iht.trans ht2⟩

/-- C5: folding locale directories keys values by locale, so processing
later locale directories whose locale differs from `l` never changes any
value already recorded for locale `l`, in either the filters or the tags
mapping, for any id and field. -/
theorem loadLocales_no_cross_locale_overwrite (ds1 ds2 : List LocaleDirInput)
    (l : String) (h : ∀ d ∈ ds2, d.locale ≠ l) (id f : String) :
    getVal (loadLocales (ds1 ++ ds2)).filters id l f =
      getVal (loadLocales ds1).filters id l f ∧
    getVal (loadLocales (ds1 ++ ds2)).tags id l f =
      getVal (loadLocales ds1).tags id l f := by
  unfold loadLocales
  rw [List.foldl_append]
  exact getVal_foldLocaleDirs_ne ds2 l h id f _

/-- C5 witness: an `en` and an `fr` directory both contributing
`hostlist.10.name` end up under their own locale keys; the later `fr`
directory does not overwrite the `en` value. -/
theorem loadLocales_no_cross_locale_overwrite_witness :
    (∀ d ∈ [frDirInput], d.locale ≠ "en") ∧
    getVal (loadLocales ([enDirInput] ++ [frDirInput])).filters "10" "en" "name" =
      getVal (loadLocales [enDirInput]).filters "10" "en" "name" ∧
    getVal (loadLocales ([enDirInput] ++ [frDirInput])).filters "10" "en" "name" =
      some "Name en" ∧
    getVal (loadLocales ([enDirInput] ++ [frDirInput])).filters "10" "fr" "name" =
      some "Name fr" :=
  ⟨fun d hd => by
      rcases List.mem_singleton.mp hd with rfl
      decide,
    (loadLocales_no_cross_locale_overwrite [enDirInput] [frDirInput] "en"
      (fun d hd => by
        rcases List.mem_singleton.mp hd with rfl
        decide) "10" "name").1,
    rfl, rfl⟩

/-- C6 counterexample: the key `other.1.name` does not contain the prefix
`hostlist.`, yet it is not skipped — it contributes an entry under the id
`other.1.` (the parse falls back to `searchIndex = mask.length - 1` and the
`substring` argument swap yields a nonempty id). -/
theorem no_prefix_key_still_contributes :
    jsIndexOf "other.1.name" "hostlist." = -1 ∧
    (parseInfo "other.1.name" "hostlist.").id = "other.1." ∧
    getVal (loadLocales [otherDirInput]).filters "other.1." "en" "name" = some "v" :=
  ⟨rfl, rfl, rfl⟩

/-- C6 amended: every key whose parsed id is empty is skipped without an
error and contributes no entry to the output mapping; a key that does not
contain the expected prefix is still parsed (with the search index falling
at the end of the absent mask) and is only skipped when the resulting id is
empty. -/
theorem processKey_skips_empty_id (m : IdMap) (locale mask key value : String)
    (h : (parseInfo key mask).id = "") :
    processKey m locale mask key value = m := by
  unfold processKey
  simp [h]

/-- C6 amended witness: the key `hostlist..name` parses to an empty id and
is skipped. -/
theorem processKey_skips_empty_id_witness :
    (parseInfo "hostlist..name" "hostlist.").id = "" ∧
    processKey emptyIdMap "en" "hostlist." "hostlist..name" "v" = emptyIdMap :=
  ⟨rfl, processKey_skips_empty_id emptyIdMap "en" "hostlist." "hostlist..name" "v" rfl⟩

theorem buildLoop_partition (digest : String → String) (now : Nat) :
    ∀ (filters : List FilterDirInput) (idx : Nat) (ws : List WriteEvent)
      (fprod fdev : List FilterMetadata),
      buildLoop digest now idx filters = (ws, Except.ok (fprod, fdev)) →
      fdev.length = filters.length ∧
      fprod = prodOf filters fdev ∧
      ∀ k (hk : k < filters.length) (hk2 : k < fdev.length),
        (processFilterDir digest now (idx + k) (filters.get ⟨k, hk⟩)).2 =
          Except.ok (fdev.get ⟨k, hk2⟩) := by
  intro filters
  induction filters with
  | nil =>
    intro idx ws fprod fdev h
    simp only [buildLoop, Prod.mk.injEq, Except.ok.injEq] at h
    rcases h with ⟨-, rfl, rfl⟩
    exact ⟨rfl, rfl, fun k hk => absurd hk (Nat.not_lt_zero k)⟩
  | cons inp rest ih =>
    intro idx ws fprod fdev h
    unfold buildLoop at h
    cases hp : processFilterDir digest now idx inp with
    | mk w r =>
      rw [hp] at h
      cases r with
      | error e => simp at h
      | ok fm =>
        dsimp only at h
        cases hbl : buildLoop digest now (idx + 1) rest with
        | mk ws2 r2 =>
          rw [hbl] at h
          cases r2 with
          | error e => simp at h
          | ok pr =>
            rcases pr with ⟨fprod2, fdev2⟩
            simp only [Prod.mk.injEq, Except.ok.injEq] at h
            rcases h with ⟨-, h2, h3⟩
            subst h3
            rcases ih (idx + 1) ws2 fprod2 fdev2 hbl with ⟨hlen, hprod, hget⟩
            refine ⟨by simp [hlen], ?_, ?_⟩
            · rw [← h2, hprod]
              by_cases he : inp.metadata.environment = "prod" <;> simp [prodOf, he]
            · intro k hk hk2
              cases k with
              | zero =>
                simpa using congrArg Prod.snd hp
              | succ k2 =>
                have hk3 : k2 < rest.length := by simpa using hk
                have hk4 : k2 < fdev2.length := by simpa using hk2
                have := hget k2 hk3 hk4
                simpa [Nat.add_comm, Nat.add_assoc, Nat.add_left_comm] using this

theorem prodOf_mem :
    ∀ (filters : List FilterDirInput) (fdev : List FilterMetadata)
      (k : Nat) (hk : k < filters.length) (hk2 : k < fdev.length),
      (filters.get ⟨k, hk⟩).metadata.environment = "prod" →
      fdev.get ⟨k, hk2⟩ ∈ prodOf filters fdev := by
  intro filters
  induction filters with
  | nil => intro fdev k hk; exact absurd hk (Nat.not_lt_zero k)
  | cons i rest ih =>
    intro fdev k hk hk2 henv
    cases fdev with
    | nil => exact absurd hk2 (Nat.not_lt_zero k)
    | cons fm fms =>
      cases k with
      | zero =>
        simp only [List.get] at henv
        simp [prodOf, henv]
      | succ k2 =>
        have hk3 : k2 < rest.length := by simpa using hk
        have hk4 : k2 < fms.length := by simpa using hk2
        have hmem := ih fms k2 hk3 hk4 (by simpa using henv)
        have hmem2 : fms[k2] ∈ prodOf rest fms := by simpa using hmem
        by_cases he : i.metadata.environment = "prod" <;>
          simp [prodOf, he, hmem2]

/-- C9: on a successful build, the dev catalog contains a record for every
list in walk order, each produced by that list's loop iteration, and the
prod catalog is exactly the sublist of dev records whose descriptor
environment is `prod`; in particular every prod-environment record is in
both catalogs. -/
theorem build_partition (digest : String → String) (now : Nat)
    (inp : BuildInput) (out : BuildOutput)
    (h : (build digest now inp).2 = Except.ok out) :
    out.filtersMetadataDev.length = inp.filters.length ∧
    out.filtersMetadata = prodOf inp.filters out.filtersMetadataDev ∧
    (∀ k (hk : k < inp.filters.length) (hk2 : k < out.filtersMetadataDev.length),
      (processFilterDir digest now k (inp.filters.get ⟨k, hk⟩)).2 =
        Except.ok (out.filtersMetadataDev.get ⟨k, hk2⟩)) ∧
    (∀ k (hk : k < inp.filters.length) (hk2 : k < out.filtersMetadataDev.length),
      (inp.filters.get ⟨k, hk⟩).metadata.environment = "prod" →
      out.filtersMetadataDev.get ⟨k, hk2⟩ ∈ out.filtersMetadata) := by
  have hcore : ∃ ws, buildLoop digest now 0 inp.filters =
      (ws, Except.ok (out.filtersMetadata, out.filtersMetadataDev)) := by
    unfold build at h
    cases hbl : buildLoop digest now 0 inp.filters with
    | mk ws r =>
      rw [hbl] at h
      cases r with
      | error e => simp at h
      | ok pr =>
        rcases pr with ⟨fprod, fdev⟩
        dsimp only at h
        cases hm : inp.mastodonServers with
        | error e => rw [hm] at h; simp at h
        | ok mastodonServers =>
          rw [hm] at h
          dsimp only at h
          cases hs : inp.services with
          | none => rw [hs] at h; simp at h
          | some services =>
            rw [hs] at h
            dsimp only at h
            cases hf : services.blocked_services.findIdx? (fun el => el.id = "mastodon") with
            | none => rw [hf] at h; simp at h
            | some mastodonIndex =>
              rw [hf] at h
              dsimp only at h
              rcases h with ⟨h⟩
              exact ⟨ws, rfl⟩
  rcases hcore with ⟨ws, hbl⟩
  rcases buildLoop_partition digest now inp.filters 0 ws
      out.filtersMetadata out.filtersMetadataDev hbl with ⟨hlen, hprod, hget⟩
  refine ⟨hlen, hprod, fun k hk hk2 => by simpa using hget k hk hk2, ?_⟩
  intro k hk hk2 henv
  rw [hprod]
  exact prodOf_mem inp.filters out.filtersMetadataDev k hk hk2 henv

/-- C9 witness: a concrete run with one `prod` and one `staging` list — the
dev catalog holds both records, the prod catalog exactly the `prod` one. -/
theorem build_partition_witness :
    (build digestId 1000 c9Input).2 = Except.ok c9Out ∧
    c9Out.filtersMetadataDev.length = c9Input.filters.length ∧
    c9Out.filtersMetadata = prodOf c9Input.filters c9Out.filtersMetadataDev :=
  ⟨rfl, (build_partition digestId 1000 c9Input c9Out rfl).1,
    (build_partition digestId 1000 c9Input c9Out rfl).2.1⟩

theorem translate_foldl_aux (l : List (String × String)) (sign : String) :
    ∀ acc : FieldMap,
      (l.foldl (fun a kv => fun s => if s = keySign kv.1 then some kv.2 else a s) acc) sign =
        (match lastValueOfSign l sign with
         | some v => some v
         | none => acc sign) := by
  induction l with
  | nil => intro acc; rfl
  | cons kv t ih =>
    intro acc
    rw [List.foldl_cons, ih]
    cases hlt : lastValueOfSign t sign with
    | some v => simp [lastValueOfSign, hlt]
    | none =>
      by_cases hk : keySign kv.1 = sign
      · simp [lastValueOfSign, hlt, hk]
      · have hk2 : ¬ sign = keySign kv.1 := fun he => hk he.symm
        simp [lastValueOfSign, hlt, hk, hk2]

theorem fileObjectTranslate_eq_last (fileObject : List (String × String))
    (sign : String) :
    fileObjectTranslate fileObject sign = lastValueOfSign fileObject sign := by
  have h := translate_foldl_aux fileObject sign emptyFieldMap
  exact h.trans (by cases h2 : lastValueOfSign fileObject sign <;> simp [h2, emptyFieldMap])

theorem foldl_assign_lookup (x : LocaleMap) (ids : List String) :
    ∀ (g : IdMap) (id : String),
      (ids.foldl (fun g2 i => fun j => if j = i then some x else g2 j) g) id =
        if id ∈ ids then some x else g id := by
  induction ids with
  | nil => intro g id; simp
  | cons a t ih =>
    intro g id
    rw [List.foldl_cons, ih]
    by_cases ht : id ∈ t
    · simp [ht]
    · by_cases ha : id = a <;> simp [ht, ha]

/-- C10: within one file object of the service-group translation folder,
every parsed id is mapped to the same shared locale object, whose field set
is the union of all fields parsed from that file object (for each sign, the
value of the last key of the whole object with that sign), regardless of
which id each key named. -/
theorem groupFileContentByTranslations_shares_translations
    (fileObject : List (String × String)) (locale id1 id2 : String)
    (h1 : id1 ∈ fileObjectIds fileObject) (h2 : id2 ∈ fileObjectIds fileObject) :
    groupFileContentByTranslations [fileObject] locale id1 =
      groupFileContentByTranslations [fileObject] locale id2 ∧
    ∀ sign, getVal (groupFileContentByTranslations [fileObject] locale) id1 locale sign =
      lastValueOfSign fileObject sign := by
  have hlook : ∀ id, id ∈ fileObjectIds fileObject →
      groupFileContentByTranslations [fileObject] locale id =
        some (fun l => if l = locale
          then some (fileObjectTranslate fileObject) else none) := by
    intro id hid
    have h := foldl_assign_lookup
      (fun l => if l = locale then some (fileObjectTranslate fileObject) else none)
      (fileObjectIds fileObject) emptyIdMap id
    exact h.trans (by simp [hid])
  refine ⟨(hlook id1 h1).trans (hlook id2 h2).symm, ?_⟩
  intro sign
  unfold getVal
  rw [hlook id1 h1]
  simp
  exact fileObjectTranslate_eq_last fileObject sign

/-- C10 witness: in a file object with keys `servicesgroup.a.name` and
`servicesgroup.b.description`, the id `a` also carries the `description`
field contributed by the `b` key. -/
theorem groupFileContentByTranslations_shares_translations_witness :
    "a" ∈ fileObjectIds demoFileObject ∧ "b" ∈ fileObjectIds demoFileObject ∧
    getVal (groupFileContentByTranslations [demoFileObject] "en") "a" "en" "description" =
      lastValueOfSign demoFileObject "description" ∧
    lastValueOfSign demoFileObject "description" = some "B" :=
  ⟨by decide, by decide,
    (groupFileContentByTranslations_shares_translations demoFileObject "en" "a" "b"
      (by decide) (by decide)).2 "description",
    rfl⟩

end HostlistsRegistry
